import Mathlib

/-!
# Verification of the resume-backend skill matcher

Shallow embedding of `src/skill_matcher.py` (class `SkillMatcher`).

Texts are modelled as `String` / `List Char`; Python `set` as `Finset (List Char)`;
float arithmetic as exact real arithmetic over `ℝ` (`round(x, 2)` becomes `round2`,
using Python's round-half-to-even). Python's regex word class `\w` and the
character classes `[A-Z]`, `[a-zA-Z]` are modelled over ASCII, matching the
ASCII inputs the matcher is applied to; lowercasing is `Char.toLower`
(ASCII, as CPython's `str.lower` on ASCII text).
-/

set_option maxRecDepth 400000
set_option maxHeartbeats 1600000

/-- Python regex `\w` (word character), ASCII: letter, digit or underscore. -/
def isWordChar (c : Char) : Bool := c.isAlphanum || c == '_'

/-- Whether position `i` of the text holds a word character (out of range counts
as a non-word position, the regex treatment of the string boundaries). -/
def isWordAt (cs : List Char) (i : Nat) : Bool :=
  match cs[i]? with
  | some c => isWordChar c
  | none => false

/-- Python regex `\b` at position `i`: the two sides of the position differ in
wordness (string boundaries count as non-word). -/
def boundaryAt (cs : List Char) (i : Nat) : Bool :=
  (decide (i ≠ 0) && isWordAt cs (i - 1)) != isWordAt cs i

/-- The escaped literal `sk` matches the text at position `i`
(`re.escape(skill)` makes the skill a literal in the pattern). -/
def matchesAt (sk cs : List Char) (i : Nat) : Bool :=
  (cs.drop i).take sk.length == sk

/-- `re.search(r'\b' + re.escape(sk) + r'\b', cs)` succeeds: the literal occurs
at some position with a word boundary on both ends
(`skill_matcher.py` line 96-97). -/
def wholeWordSearch (sk cs : List Char) : Bool :=
  (List.range (cs.length + 1)).any fun i =>
    boundaryAt cs i && matchesAt sk cs i && boundaryAt cs (i + sk.length)

/-- Build the stored skill set from string literals (Python `set` literal of
`str`). -/
def strSet (l : List String) : Finset (List Char) := (l.map String.data).toFinset

/-- `self.common_tech_skills` (`skill_matcher.py` lines 23-33), transcribed
verbatim — note the capitalized entries `"Golang"` and `"Go"`. -/
def common_tech_skills : Finset (List Char) := strSet
  ["python", "java", "javascript", "typescript", "c++", "c#", "ruby", "php", "swift",
   "kotlin", "Golang", "Go", "rust", "html", "css", "react", "angular", "vue", "node.js", "express",
   "django", "flask", "spring", "hibernate", "docker", "kubernetes", "aws", "azure",
   "gcp", "terraform", "jenkins", "github actions", "circleci", "travis", "git", "svn",
   "sql", "mysql", "postgresql", "mongodb", "redis", "elasticsearch", "kafka", "rabbitmq",
   "tensorflow", "pytorch", "scikit-learn", "pandas", "numpy", "matplotlib", "tableau",
   "power bi", "excel", "jira", "confluence", "agile", "scrum", "kanban", "rest api",
   "graphql", "oauth", "jwt", "microservices", "devops", "ci/cd", "machine learning",
   "deep learning", "nlp", "data analysis", "data science", "big data", "hadoop", "spark"]

/-- `skill_categories["programming_languages"]`. -/
def programming_languages : Finset (List Char) := strSet
  ["python", "java", "c++", "c#", "javascript", "typescript", "ruby", "go", "rust",
   "php", "scala", "kotlin", "swift", "r", "perl", "bash", "powershell", "sql"]

/-- `skill_categories["frontend"]`. -/
def frontend : Finset (List Char) := strSet
  ["html", "css", "javascript", "react", "angular", "vue", "redux", "bootstrap",
   "tailwind", "jquery", "webpack", "sass", "less", "typescript", "next.js", "gatsby"]

/-- `skill_categories["backend"]`. -/
def backend : Finset (List Char) := strSet
  ["node.js", "express", "django", "flask", "spring", "laravel", "ruby on rails",
   "asp.net", "fastapi", "graphql", "rest api", "websockets", "microservices"]

/-- `skill_categories["databases"]`. -/
def databases : Finset (List Char) := strSet
  ["sql", "mysql", "postgresql", "mongodb", "sqlite", "oracle", "dynamodb", "redis",
   "cassandra", "elasticsearch", "firebase", "mariadb", "neo4j", "couchbase"]

/-- `skill_categories["devops"]`. -/
def devops : Finset (List Char) := strSet
  ["docker", "kubernetes", "jenkins", "gitlab ci", "github actions", "terraform",
   "ansible", "puppet", "chef", "aws", "azure", "gcp", "ci/cd", "prometheus", "grafana"]

/-- `skill_categories["data_science"]`. -/
def data_science : Finset (List Char) := strSet
  ["python", "r", "pandas", "numpy", "matplotlib", "scikit-learn", "tensorflow",
   "pytorch", "keras", "jupyter", "tableau", "power bi", "machine learning",
   "deep learning", "statistics", "data visualization", "big data", "data mining"]

/-- `skill_categories["soft_skills"]`. -/
def soft_skills : Finset (List Char) := strSet
  ["leadership", "communication", "teamwork", "problem solving", "critical thinking",
   "time management", "project management", "creativity", "adaptability", "collaboration"]

/-- The values of `self.skill_categories` (`skill_matcher.py` lines 36-66). -/
def skill_categories : List (Finset (List Char)) :=
  [programming_languages, frontend, backend, databases, devops, data_science, soft_skills]

/-- `self.all_skills`: union of every category set, then of the common set
(`skill_matcher.py` lines 68-72). -/
def all_skills : Finset (List Char) :=
  skill_categories.foldl (· ∪ ·) ∅ ∪ common_tech_skills

/-- `[A-Z]`-run test for the abbreviation pass (`skill_matcher.py` lines
100-105): `re.finditer(r'\b[A-Z][A-Z]+\b', text)` matches exactly the
substrings of ≥ 2 uppercase letters delimited by a word boundary on both
sides (greedy `[A-Z]+` plus the trailing `\b` force maximal whole-word runs;
qualifying runs are disjoint, so the non-overlapping scan finds them all). -/
def upperRunAt (cs : List Char) (i l : Nat) : Bool :=
  decide (2 ≤ l) && decide (i + l ≤ cs.length) &&
    ((cs.drop i).take l).all (fun c => c.isUpper) &&
    boundaryAt cs i && boundaryAt cs (i + l)

/-- The abbreviation pass: every whole-word uppercase run of the original-case
text, lowercased (the `len >= 2` re-check of line 104 is subsumed by the
pattern itself). -/
def abbrevRuns (cs : List Char) : Finset (List Char) :=
  ((List.range (cs.length + 1)).flatMap fun i =>
    (List.range (cs.length + 1)).filterMap fun l =>
      if upperRunAt cs i l then some (((cs.drop i).take l).map Char.toLower)
      else none).toFinset

/-- Character class `[a-zA-Z\-\.]` of the token pattern of line 109. -/
def isNgramChar (c : Char) : Bool := c.isAlpha || c == '-' || c == '.'

/-- One attempt of `re.findall(r'\b[a-zA-Z][a-zA-Z\-\.]+\b', ...)` at position
`i`: leading `\b`, a letter, then the greedy run of `[a-zA-Z\-\.]` backtracked
to the longest end position `e ≥ i + 2` where `\b` holds. Returns that end. -/
def tryTok (cs : List Char) (i : Nat) : Option Nat :=
  if boundaryAt cs i &&
      (match cs[i]? with | some c => c.isAlpha | none => false) then
    let j := i + 1 + ((cs.drop (i + 1)).takeWhile isNgramChar).length
    ((List.range (j + 1)).filter fun e => decide (i + 2 ≤ e) && boundaryAt cs e).getLast?
  else none

/-- The left-to-right non-overlapping scan of `re.findall`: on a match ending
at `e` resume from `e`, otherwise advance one position. The fuel only bounds
the recursion; each step advances the position, so `cs.length + 1` units
suffice for the whole scan. -/
def findTokensAux (cs : List Char) : Nat → Nat → List (List Char)
  | 0, _ => []
  | fuel + 1, i =>
    if i < cs.length then
      match tryTok cs i with
      | some e => ((cs.drop i).take (e - i)) :: findTokensAux cs fuel e
      | none => findTokensAux cs fuel (i + 1)
    else []

/-- `words = re.findall(r'\b[a-zA-Z][a-zA-Z\-\.]+\b', text_lower)`
(`skill_matcher.py` line 109). -/
def findTokens (cs : List Char) : List (List Char) :=
  findTokensAux cs (cs.length + 1) 0

/-- Python `' '.join(ws)`. -/
def joinSpace : List (List Char) → List Char
  | [] => []
  | [w] => w
  | w :: ws => w ++ ' ' :: joinSpace ws

/-- `bigrams = [' '.join(words[i:i+2]) for i in range(len(words)-1)]`
(line 110). -/
def bigrams (words : List (List Char)) : List (List Char) :=
  (List.range (words.length - 1)).map fun i => joinSpace ((words.drop i).take 2)

/-- `trigrams = [' '.join(words[i:i+3]) for i in range(len(words)-2)]`
(line 111). -/
def trigrams (words : List (List Char)) : List (List Char) :=
  (List.range (words.length - 2)).map fun i => joinSpace ((words.drop i).take 3)

/-- First pass of `extract_skills` (lines 93-98): the vocabulary terms that
occur whole-word in the lowered text. -/
def exactPass (text_lower : List Char) : Finset (List Char) :=
  all_skills.filter fun sk => wholeWordSearch sk text_lower = true

/-- Third pass of `extract_skills` (lines 107-116): the bigrams and trigrams
of the tokenized text that are vocabulary terms. -/
def phrasePass (words : List (List Char)) : Finset (List Char) :=
  ((bigrams words ++ trigrams words).filter (fun p => p ∈ all_skills)).toFinset

/-- Body of `SkillMatcher.extract_skills` past the emptiness guard
(`skill_matcher.py` lines 90-118): the union of the exact-vocabulary pass on
the lowered text, the uppercase-abbreviation pass on the original text, and
the n-gram pass on the tokenized lowered text. -/
def extractCore (cs : List Char) : Finset (List Char) :=
  let text_lower := cs.map Char.toLower
  exactPass text_lower ∪ abbrevRuns cs ∪ phrasePass (findTokens text_lower)

/-- `SkillMatcher.extract_skills` (lines 77-118). `if not text: return set()`
is the guard for the empty (or absent) text. -/
def extract_skills (text : String) : Finset (List Char) :=
  if text = "" then ∅ else extractCore text.data

/-- No ASCII uppercase letter occurs in the term. -/
def noUpper (x : List Char) : Bool := x.all fun c => !c.isUpper

/-- `text.lower()` as a character list. -/
def lowerData (s : String) : List Char := s.data.map Char.toLower

/-- One step of the `CountVectorizer` tokenizer (default
`token_pattern=r"(?u)\b\w\w+\b"`): the tokens of a document are its maximal
runs of word characters of length at least 2. The fuel only bounds the
recursion; each step drops at least one character, so `cs.length` units
suffice. -/
def cvTokensAux : Nat → List Char → List (List Char)
  | 0, _ => []
  | _ + 1, [] => []
  | fuel + 1, c :: rest =>
    if isWordChar c then
      let run := c :: rest.takeWhile isWordChar
      let rest2 := rest.dropWhile isWordChar
      if 2 ≤ run.length then run :: cvTokensAux fuel rest2
      else cvTokensAux fuel rest2
    else cvTokensAux fuel rest

/-- The `CountVectorizer` tokenization of one document. -/
def cvTokens (cs : List Char) : List (List Char) := cvTokensAux cs.length cs

/-- Cosine similarity of the two term-count vectors over the fitted vocabulary
`v` (`cosine_similarity(X)[0, 1]` on the document-term matrix of line 137-139):
`dot(a, b) / (‖a‖ * ‖b‖)`. When one document has no tokens its vector is zero
and sklearn's `normalize` leaves it zero, giving similarity 0 — which agrees
with Lean's `x / 0 = 0` convention, since the dot product is then 0 as well. -/
noncomputable def cosSimVal (v : Finset (List Char)) (ta tb : List (List Char)) : ℝ :=
  (∑ t in v, (ta.count t : ℝ) * (tb.count t : ℝ)) /
    (Real.sqrt (∑ t in v, (ta.count t : ℝ) ^ 2) *
      Real.sqrt (∑ t in v, (tb.count t : ℝ) ^ 2))

/-- `SkillMatcher.calculate_similarity` (`skill_matcher.py` lines 120-143).
Float arithmetic is modelled exactly over `ℝ`. `if not resume_text or not
job_text: return 0.0` is the emptiness guard; `fit_transform` raises
`ValueError` on an empty vocabulary (no document yields any token), which the
`except` clause turns into `0.0`. -/
noncomputable def calculate_similarity (resume_text job_text : String) : ℝ :=
  if resume_text = "" ∨ job_text = "" then 0
  else
    let ta := cvTokens (lowerData resume_text)
    let tb := cvTokens (lowerData job_text)
    let vocab := (ta ++ tb).toFinset
    if vocab = ∅ then 0
    else cosSimVal vocab ta tb

/-- Python's `round` to an integer: nearest integer, ties to even. -/
noncomputable def pyRound (x : ℝ) : ℤ :=
  if x - ⌊x⌋ < 1 / 2 then ⌊x⌋
  else if 1 / 2 < x - ⌊x⌋ then ⌊x⌋ + 1
  else if Even ⌊x⌋ then ⌊x⌋ else ⌊x⌋ + 1

/-- Python's `round(x, 2)` over the exact-real model of float arithmetic. -/
noncomputable def round2 (x : ℝ) : ℝ := (pyRound (x * 100) : ℝ) / 100

/-- `SkillMatcher.find_matching_skills` (lines 145-157). -/
def find_matching_skills (resume_skills job_skills : Finset (List Char)) :
    Finset (List Char) :=
  resume_skills ∩ job_skills

/-- `SkillMatcher.find_missing_skills` (lines 159-171); the `resume_skills`
argument is taken but unused, as in the source. -/
def find_missing_skills (resume_skills job_skills matching_skills :
    Finset (List Char)) : Finset (List Char) :=
  job_skills \ matching_skills

/-- The result dictionary of `SkillMatcher.analyze` (lines 205-217). The four
skill lists are produced by `sorted(list(...))`; sorting is presentational, so
they are modelled by the underlying `Finset`s, with the `skill_count` entries
as their sizes. -/
structure AnalysisResult where
  match_percentage : ℝ
  resume_skills : Finset (List Char)
  job_required_skills : Finset (List Char)
  matching_skills : Finset (List Char)
  missing_skills : Finset (List Char)
  skill_count_resume : Nat
  skill_count_job_description : Nat
  skill_count_matching : Nat
  skill_count_missing : Nat

/-- `SkillMatcher.analyze` (`skill_matcher.py` lines 173-219). `if job_skills:`
is Python's emptiness test on a set. -/
noncomputable def analyze (resume_text job_desc_text : String) : AnalysisResult :=
  let resume_skills := extract_skills resume_text
  let job_skills := extract_skills job_desc_text
  let matching_skills := find_matching_skills resume_skills job_skills
  let missing_skills := find_missing_skills resume_skills job_skills matching_skills
  let text_similarity := calculate_similarity resume_text job_desc_text
  let coverage : ℝ :=
    if job_skills.Nonempty then (matching_skills.card : ℝ) / (job_skills.card : ℝ)
    else 0
  let match_percentage := (text_similarity * 0.5 + coverage * 0.5) * 100
  { match_percentage := round2 match_percentage
    resume_skills := resume_skills
    job_required_skills := job_skills
    matching_skills := matching_skills
    missing_skills := missing_skills
    skill_count_resume := resume_skills.card
    skill_count_job_description := job_skills.card
    skill_count_matching := matching_skills.card
    skill_count_missing := missing_skills.card }

/-- The resume text of the spec's end-to-end scenario (§8). -/
def resumeExample : String := "Proficient in Python and SQL, 3 years Docker experience"

/-- The job-description text of the spec's end-to-end scenario (§8). -/
def jobExample : String := "Looking for a Python developer with SQL and Kubernetes skills"

/-! ## Character-level lemmas -/

theorem toLower_isUpper_false (c : Char) : (Char.toLower c).isUpper = false := by
  unfold Char.toLower
  by_cases h : Char.toNat c ≥ 65 ∧ Char.toNat c ≤ 90
  · rw [if_pos h]
    obtain ⟨h1, h2⟩ := h
    generalize hn : Char.toNat c = n at h1 h2
    interval_cases n <;> decide
  · rw [if_neg h]
    by_contra hne
    rw [Bool.not_eq_false] at hne
    unfold Char.isUpper at hne
    rw [Bool.and_eq_true, decide_eq_true_iff, decide_eq_true_iff] at hne
    exact h ⟨hne.1, hne.2⟩

theorem isUpper_false_of_mem_lower {cs : List Char} {c : Char}
    (h : c ∈ cs.map Char.toLower) : c.isUpper = false := by
  rcases List.mem_map.mp h with ⟨d, _, rfl⟩
  exact toLower_isUpper_false d

theorem mem_of_slice {x l : List Char} {a n : Nat}
    (hx : x = (l.drop a).take n) {c : Char} (hc : c ∈ x) : c ∈ l := by
  subst hx
  exact List.mem_of_mem_drop (List.mem_of_mem_take hc)

theorem noUpper_of_forall {x : List Char}
    (h : ∀ c ∈ x, c.isUpper = false) : noUpper x = true := by
  simp only [noUpper, List.all_eq_true]
  intro c hc
  simp [h c hc]

/-! ## Membership characterizations of the three extraction passes -/

theorem mem_exactPass {tl x : List Char} :
    x ∈ exactPass tl ↔ x ∈ all_skills ∧ wholeWordSearch x tl = true := by
  simp [exactPass, Finset.mem_filter]

theorem mem_phrasePass {ws : List (List Char)} {x : List Char} :
    x ∈ phrasePass ws ↔ (x ∈ bigrams ws ∨ x ∈ trigrams ws) ∧ x ∈ all_skills := by
  simp only [phrasePass, List.mem_toFinset, List.mem_filter, List.mem_append,
    decide_eq_true_iff]

theorem mem_abbrevRuns {cs x : List Char} :
    x ∈ abbrevRuns cs ↔ ∃ i l, upperRunAt cs i l = true ∧
      x = ((cs.drop i).take l).map Char.toLower := by
  simp only [abbrevRuns, List.mem_toFinset, List.mem_flatMap, List.mem_filterMap,
    List.mem_range]
  constructor
  · rintro ⟨i, _, l, hl, hx⟩
    by_cases hrun : upperRunAt cs i l
    · rw [if_pos hrun] at hx
      exact ⟨i, l, hrun, (Option.some_inj.mp hx).symm⟩
    · rw [if_neg hrun] at hx
      exact absurd hx (Option.noConfusion)
  · rintro ⟨i, l, hrun, hx⟩
    have hle : i + l ≤ cs.length := by
      have := hrun
      unfold upperRunAt at this
      simp only [Bool.and_eq_true, decide_eq_true_iff] at this
      exact this.1.1.1.2
    have h2 : 2 ≤ l := by
      have := hrun
      unfold upperRunAt at this
      simp only [Bool.and_eq_true, decide_eq_true_iff] at this
      exact this.1.1.1.1
    refine ⟨i, by omega, l, by omega, ?_⟩
    rw [if_pos hrun, hx]

theorem mem_extractCore {cs x : List Char} :
    x ∈ extractCore cs ↔ x ∈ exactPass (cs.map Char.toLower) ∨
      x ∈ abbrevRuns cs ∨ x ∈ phrasePass (findTokens (cs.map Char.toLower)) := by
  simp [extractCore, Finset.mem_union, or_assoc]

theorem wholeWordSearch_slice {sk cs : List Char}
    (h : wholeWordSearch sk cs = true) :
    ∃ i, sk = (cs.drop i).take sk.length := by
  simp only [wholeWordSearch, List.any_eq_true, List.mem_range] at h
  rcases h with ⟨i, _, hb⟩
  rw [Bool.and_eq_true, Bool.and_eq_true] at hb
  exact ⟨i, (eq_of_beq hb.1.2).symm⟩

theorem findTokensAux_slice {cs : List Char} :
    ∀ (fuel i : Nat) (x : List Char), x ∈ findTokensAux cs fuel i →
      ∃ a n, x = (cs.drop a).take n := by
  intro fuel
  induction fuel with
  | zero => intro i x hx; simp [findTokensAux] at hx
  | succ fuel ih =>
    intro i x hx
    rw [findTokensAux] at hx
    split at hx
    · cases htm : tryTok cs i with
      | some e =>
        rw [htm] at hx
        rcases List.mem_cons.mp hx with h | h
        · exact ⟨i, e - i, h⟩
        · exact ih e x h
      | none =>
        rw [htm] at hx
        exact ih (i + 1) x hx
    · simp at hx

theorem mem_joinSpace {c : Char} :
    ∀ {ws : List (List Char)}, c ∈ joinSpace ws → c = ' ' ∨ ∃ w ∈ ws, c ∈ w := by
  intro ws
  induction ws with
  | nil => intro h; simp [joinSpace] at h
  | cons w ws ih =>
    cases ws with
    | nil =>
      intro h
      have hj : joinSpace [w] = w := rfl
      rw [hj] at h
      exact Or.inr ⟨w, List.mem_cons_self w [], h⟩
    | cons w2 ws2 =>
      intro h
      have hj : joinSpace (w :: w2 :: ws2) = w ++ ' ' :: joinSpace (w2 :: ws2) := rfl
      rw [hj] at h
      rcases List.mem_append.mp h with h | h
      · exact Or.inr ⟨w, List.mem_cons_self _ _, h⟩
      · rcases List.mem_cons.mp h with h | h
        · exact Or.inl h
        · rcases ih h with h | ⟨w3, hw3, hc⟩
          · exact Or.inl h
          · exact Or.inr ⟨w3, List.mem_cons_of_mem _ hw3, hc⟩

theorem mem_bigrams {ws : List (List Char)} {x : List Char}
    (h : x ∈ bigrams ws) : ∃ i, x = joinSpace ((ws.drop i).take 2) := by
  rcases List.mem_map.mp h with ⟨i, -, rfl⟩
  exact ⟨i, rfl⟩

theorem mem_trigrams {ws : List (List Char)} {x : List Char}
    (h : x ∈ trigrams ws) : ∃ i, x = joinSpace ((ws.drop i).take 3) := by
  rcases List.mem_map.mp h with ⟨i, -, rfl⟩
  exact ⟨i, rfl⟩

theorem noUpper_of_window {cs : List Char} {i k : Nat} {c : Char}
    (hc : c ∈ joinSpace (((findTokens (cs.map Char.toLower)).drop i).take k)) :
    c.isUpper = false := by
  rcases mem_joinSpace hc with rfl | ⟨w, hw, hcw⟩
  · decide
  · have hw2 : w ∈ findTokens (cs.map Char.toLower) :=
      List.mem_of_mem_drop (List.mem_of_mem_take hw)
    rcases findTokensAux_slice _ 0 w hw2 with ⟨a, n, hsl⟩
    exact isUpper_false_of_mem_lower (mem_of_slice hsl hcw)

theorem noUpper_of_mem_extractCore {cs x : List Char}
    (hx : x ∈ extractCore cs) : noUpper x = true := by
  rcases mem_extractCore.mp hx with h | h | h
  · rcases mem_exactPass.mp h with ⟨-, hs⟩
    rcases wholeWordSearch_slice hs with ⟨i, hsl⟩
    exact noUpper_of_forall fun c hc => isUpper_false_of_mem_lower (mem_of_slice hsl hc)
  · rcases mem_abbrevRuns.mp h with ⟨i, l, -, hsl⟩
    subst hsl
    refine noUpper_of_forall fun c hc => ?_
    rcases List.mem_map.mp hc with ⟨d, -, rfl⟩
    exact toLower_isUpper_false d
  · rcases mem_phrasePass.mp h with ⟨hbt, -⟩
    rcases hbt with hb | ht
    · rcases mem_bigrams hb with ⟨i, rfl⟩
      exact noUpper_of_forall fun c hc => noUpper_of_window hc
    · rcases mem_trigrams ht with ⟨i, rfl⟩
      exact noUpper_of_forall fun c hc => noUpper_of_window hc

theorem extract_skills_eq_core {s : String} (h : ¬s = "") :
    extract_skills s = extractCore s.data := if_neg h

/-- Every element of any `extract_skills` result is free of uppercase letters. -/
theorem noUpper_extract {s : String} {x : List Char}
    (hx : x ∈ extract_skills s) : noUpper x = true := by
  by_cases hs : s = ""
  · subst hs
    simp [extract_skills] at hx
  · exact noUpper_of_mem_extractCore (extract_skills_eq_core hs ▸ hx)

/-- C3: for every input text, every element of the set returned by
`extract_skills` is a lowercase string (no uppercase letters), and hence every
skill term appearing in any of the four skill lists of an `AnalysisResult` is
lowercase. -/
theorem extract_and_analysis_skills_lowercase :
    (∀ (s : String) (x : List Char), x ∈ extract_skills s → noUpper x = true) ∧
    ∀ (r j : String) (x : List Char),
      (x ∈ (analyze r j).resume_skills ∨ x ∈ (analyze r j).job_required_skills ∨
        x ∈ (analyze r j).matching_skills ∨ x ∈ (analyze r j).missing_skills) →
      noUpper x = true := by
  refine ⟨fun s x hx => noUpper_extract hx, fun r j x hx => ?_⟩
  have h1 : (analyze r j).resume_skills = extract_skills r := rfl
  have h2 : (analyze r j).job_required_skills = extract_skills j := rfl
  have h3 : (analyze r j).matching_skills =
      extract_skills r ∩ extract_skills j := rfl
  have h4 : (analyze r j).missing_skills =
      extract_skills j \ (extract_skills r ∩ extract_skills j) := rfl
  rcases hx with hx | hx | hx | hx
  · exact noUpper_extract (h1 ▸ hx)
  · exact noUpper_extract (h2 ▸ hx)
  · exact noUpper_extract (Finset.mem_inter.mp (h3 ▸ hx)).1
  · exact noUpper_extract (Finset.mem_sdiff.mp (h4 ▸ hx)).1

/-- C9: in this total model `extract_skills` is a function defined on every
string (the source body applies no fallible operation to a `str` argument, so
no exception can arise), and empty or absent text yields the empty set. -/
theorem extract_skills_empty_input :
    ∀ s : String, s = "" → extract_skills s = ∅ := by
  intro s h
  subst h
  rfl

/-- Witness for C9 at the concrete empty input. -/
theorem extract_skills_empty_input_witness : extract_skills "" = ∅ :=
  extract_skills_empty_input "" rfl

/-- C10: everything `extract_skills` emits is either a vocabulary term or the
lowercasing of a whole-word uppercase run of the original text. -/
theorem extract_skills_provenance :
    ∀ (s : String) (x : List Char), x ∈ extract_skills s →
      x ∈ all_skills ∨ ∃ i l, upperRunAt s.data i l = true ∧
        x = ((s.data.drop i).take l).map Char.toLower := by
  intro s x hx
  by_cases hs : s = ""
  · subst hs
    simp [extract_skills] at hx
  · rw [extract_skills_eq_core hs] at hx
    rcases mem_extractCore.mp hx with h | h | h
    · exact Or.inl (mem_exactPass.mp h).1
    · exact Or.inr (mem_abbrevRuns.mp h)
    · exact Or.inl (mem_phrasePass.mp h).2

/-- Witness for C3: a concrete extraction containing a lowercase term. -/
theorem extract_and_analysis_skills_lowercase_witness :
    ("python".data ∈ extract_skills "Python") ∧ noUpper "python".data = true :=
  ⟨by decide, extract_and_analysis_skills_lowercase.1 "Python" "python".data (by decide)⟩

/-- C5: every whole-word run of two or more consecutive uppercase letters of
the original-case text is emitted, lowercased, by `extract_skills`, vocabulary
term or not; in particular the CI/CD example yields `aws` and `gcp`. -/
theorem uppercase_runs_extracted :
    (∀ (s : String) (i l : Nat), upperRunAt s.data i l = true →
      ((s.data.drop i).take l).map Char.toLower ∈ extract_skills s) ∧
    ("aws".data ∈ extract_skills "Built CI/CD pipelines using AWS and GCP" ∧
      "gcp".data ∈ extract_skills "Built CI/CD pipelines using AWS and GCP") := by
  constructor
  · intro s i l h
    by_cases hs : s = ""
    · exfalso
      subst hs
      have hd : ("" : String).data = [] := rfl
      rw [hd] at h
      unfold upperRunAt at h
      simp only [Bool.and_eq_true, decide_eq_true_iff, List.length_nil] at h
      omega
    · rw [extract_skills_eq_core hs]
      exact mem_extractCore.mpr (Or.inr (Or.inl (mem_abbrevRuns.mpr ⟨i, l, h, rfl⟩)))
  · exact ⟨by decide, by decide⟩

/-- Witness for C5 at a concrete run. -/
theorem uppercase_runs_extracted_witness :
    upperRunAt "AB".data 0 2 = true ∧
      (("AB".data.drop 0).take 2).map Char.toLower ∈ extract_skills "AB" :=
  ⟨by decide, uppercase_runs_extracted.1 "AB" 0 2 (by decide)⟩

/-- Witness for C10: a concrete member and its provenance disjunction. -/
theorem extract_skills_provenance_witness :
    ("ab".data ∈ extract_skills "AB") ∧
      ("ab".data ∈ all_skills ∨ ∃ i l, upperRunAt "AB".data i l = true ∧
        "ab".data = (("AB".data.drop i).take l).map Char.toLower) :=
  ⟨by decide, extract_skills_provenance "AB" "ab".data (by decide)⟩

/-- Counterexample to C2: the stored vocabulary holds the capitalized entry
`"Golang"` (and `"Go"`), so not every stored term is lowercase. -/
theorem vocab_contains_capitalized_entry :
    "Golang".data ∈ common_tech_skills ∧ "Golang".data ∈ all_skills ∧
      noUpper "Golang".data = false := by decide

/-- C2 amended: the only stored vocabulary terms that are not lowercase are
`"Golang"` and `"Go"` (both in `common_tech_skills`); every other term of the
flattened vocabulary is lowercase. -/
theorem vocab_lowercase_except_Golang_Go :
    all_skills.filter (fun x => noUpper x = false) = strSet ["Golang", "Go"] := by
  decide

/-- C4: exact-term matching is whole-word bounded — adjacent punctuation does
not prevent a match, and a vocabulary term is not matched inside a longer
word. -/
theorem exact_match_whole_word_bounded :
    ("python".data ∈ extract_skills "Experienced in Python, and also Java." ∧
      "java".data ∈ extract_skills "Experienced in Python, and also Java.") ∧
    "java".data ∉ extract_skills "javascript developer" :=
  ⟨⟨by decide, by decide⟩, by decide⟩

/-! ## Rounding lemmas -/

theorem pyRound_bounds (x : ℝ) : ⌊x⌋ ≤ pyRound x ∧ pyRound x ≤ ⌊x⌋ + 1 := by
  unfold pyRound
  split_ifs <;> omega

theorem le_pyRound (x : ℝ) : x - 1 / 2 ≤ (pyRound x : ℝ) := by
  have h1 := Int.floor_le x
  have h2 := Int.lt_floor_add_one x
  unfold pyRound
  split_ifs
  · linarith
  · push_cast
    linarith
  · linarith
  · push_cast
    linarith

theorem pyRound_le (x : ℝ) : (pyRound x : ℝ) ≤ x + 1 / 2 := by
  have h1 := Int.floor_le x
  have h2 := Int.lt_floor_add_one x
  unfold pyRound
  split_ifs with hA hB hC
  · linarith
  · push_cast
    linarith
  · linarith
  · have htie : x - ⌊x⌋ = 1 / 2 := le_antisymm (not_lt.mp hB) (not_lt.mp hA)
    push_cast
    linarith

theorem pyRound_nonneg {x : ℝ} (h : 0 ≤ x) : 0 ≤ pyRound x := by
  have h1 : (0 : ℤ) ≤ ⌊x⌋ := Int.floor_nonneg.mpr h
  have h2 := (pyRound_bounds x).1
  omega

theorem pyRound_le_int {x : ℝ} {n : ℤ} (h : x ≤ n) : pyRound x ≤ n := by
  have hf : ⌊x⌋ ≤ n := by
    have := Int.floor_le_floor h
    rwa [Int.floor_intCast] at this
  rcases lt_or_eq_of_le hf with hlt | heq
  · have := (pyRound_bounds x).2
    omega
  · have hx : x - ⌊x⌋ < 1 / 2 := by
      have : x ≤ (⌊x⌋ : ℝ) := by
        rw [heq]
        exact_mod_cast h
      linarith
    unfold pyRound
    rw [if_pos hx]
    exact hf

theorem round2_nonneg {x : ℝ} (h : 0 ≤ x) : 0 ≤ round2 x := by
  unfold round2
  have : (0 : ℝ) ≤ (pyRound (x * 100) : ℝ) := by
    exact_mod_cast pyRound_nonneg (by linarith)
  positivity

theorem round2_le_100 {x : ℝ} (h : x ≤ 100) : round2 x ≤ 100 := by
  unfold round2
  have h1 : pyRound (x * 100) ≤ (10000 : ℤ) := pyRound_le_int (by push_cast; linarith)
  have h2 : (pyRound (x * 100) : ℝ) ≤ 10000 := by exact_mod_cast h1
  linarith

/-! ## Similarity lemmas -/

theorem cosSimVal_nonneg (v : Finset (List Char)) (ta tb : List (List Char)) :
    0 ≤ cosSimVal v ta tb := by
  unfold cosSimVal
  apply div_nonneg
  · exact Finset.sum_nonneg fun t _ => mul_nonneg (Nat.cast_nonneg _) (Nat.cast_nonneg _)
  · exact mul_nonneg (Real.sqrt_nonneg _) (Real.sqrt_nonneg _)

theorem cosSimVal_le_one (v : Finset (List Char)) (ta tb : List (List Char)) :
    cosSimVal v ta tb ≤ 1 := by
  unfold cosSimVal
  set A := ∑ t in v, (ta.count t : ℝ) ^ 2 with hA
  set B := ∑ t in v, (tb.count t : ℝ) ^ 2 with hB
  set dot := ∑ t in v, (ta.count t : ℝ) * (tb.count t : ℝ) with hdot
  have hAnn : 0 ≤ A := Finset.sum_nonneg fun t _ => sq_nonneg _
  have hdnn : 0 ≤ dot :=
    Finset.sum_nonneg fun t _ => mul_nonneg (Nat.cast_nonneg _) (Nat.cast_nonneg _)
  have hcs : dot ^ 2 ≤ A * B := Finset.sum_mul_sq_le_sq_mul_sq v _ _
  have hle : dot ≤ Real.sqrt A * Real.sqrt B := by
    have hds : dot = Real.sqrt (dot ^ 2) := (Real.sqrt_sq hdnn).symm
    rw [hds, ← Real.sqrt_mul hAnn]
    exact Real.sqrt_le_sqrt hcs
  exact div_le_one_of_le₀ hle (mul_nonneg (Real.sqrt_nonneg _) (Real.sqrt_nonneg _))

theorem calculate_similarity_nonneg (r j : String) : 0 ≤ calculate_similarity r j := by
  unfold calculate_similarity
  dsimp only
  split_ifs with h1 h2
  · exact le_rfl
  · exact le_rfl
  · exact cosSimVal_nonneg _ _ _

theorem calculate_similarity_le_one (r j : String) : calculate_similarity r j ≤ 1 := by
  unfold calculate_similarity
  dsimp only
  split_ifs with h1 h2
  · exact zero_le_one
  · exact zero_le_one
  · exact cosSimVal_le_one _ _ _

theorem calculate_similarity_self {t : String} (h0 : ¬t = "")
    (htok : cvTokens (lowerData t) ≠ []) : calculate_similarity t t = 1 := by
  unfold calculate_similarity
  rw [if_neg (by simp [h0])]
  dsimp only
  rcases List.exists_mem_of_ne_nil _ htok with ⟨w, hw⟩
  have hwv : w ∈ (cvTokens (lowerData t) ++ cvTokens (lowerData t)).toFinset :=
    List.mem_toFinset.mpr (List.mem_append.mpr (Or.inl hw))
  rw [if_neg (by intro hemp; rw [hemp] at hwv; exact Finset.not_mem_empty w hwv)]
  unfold cosSimVal
  set ta := cvTokens (lowerData t) with hta
  set v := (ta ++ ta).toFinset with hv
  set A := ∑ x in v, ((ta.count x : ℝ)) ^ 2 with hA
  have hdot : (∑ x in v, (ta.count x : ℝ) * (ta.count x : ℝ)) = A := by
    rw [hA]
    exact Finset.sum_congr rfl fun x _ => (sq ((ta.count x : ℝ))).symm
  have hApos : 0 < A := by
    rw [hA]
    refine Finset.sum_pos' (fun x _ => sq_nonneg _) ⟨w, hwv, ?_⟩
    have hc : 0 < ta.count w := List.count_pos_iff.mpr hw
    have hcr : (0 : ℝ) < (ta.count w : ℝ) := by exact_mod_cast hc
    positivity
  rw [hdot, Real.mul_self_sqrt (le_of_lt hApos)]
  exact div_self (ne_of_gt hApos)

/-! ## Numeric claims -/

/-- C1: `analyze` reports `match_percentage = round((similarity * 0.5 +
coverage * 0.5) * 100, 2)` with coverage the matched fraction of job skills
(0 when there are none), and `matching_skills` / `missing_skills` the
intersection and its complement in the job skills. -/
theorem analyze_formula :
    ∀ r j : String,
      (analyze r j).match_percentage =
        round2 ((calculate_similarity r j * 0.5 +
          (if extract_skills j = ∅ then 0 else
            ((extract_skills r ∩ extract_skills j).card : ℝ) /
              ((extract_skills j).card : ℝ)) * 0.5) * 100) ∧
      (analyze r j).matching_skills = extract_skills r ∩ extract_skills j ∧
      (analyze r j).missing_skills =
        extract_skills j \ (extract_skills r ∩ extract_skills j) := by
  intro r j
  refine ⟨?_, rfl, rfl⟩
  show round2 ((calculate_similarity r j * 0.5 +
      (if (extract_skills j).Nonempty then
        ((find_matching_skills (extract_skills r) (extract_skills j)).card : ℝ) /
          ((extract_skills j).card : ℝ) else 0) * 0.5) * 100) = _
  by_cases hj : extract_skills j = ∅
  · rw [if_pos hj, if_neg (by rw [hj]; exact Finset.not_nonempty_empty)]
  · rw [if_neg hj, if_pos (Finset.nonempty_iff_ne_empty.mpr hj)]
    rfl

/-- C6: the match percentage always lies in `[0, 100]`, and when the job text
yields no skills it equals `round(similarity * 50, 2)` exactly. -/
theorem match_percentage_in_range :
    ∀ r j : String,
      (0 ≤ (analyze r j).match_percentage ∧ (analyze r j).match_percentage ≤ 100) ∧
      (extract_skills j = ∅ →
        (analyze r j).match_percentage = round2 (calculate_similarity r j * 50)) := by
  intro r j
  have hsim0 := calculate_similarity_nonneg r j
  have hsim1 := calculate_similarity_le_one r j
  have hmp : (analyze r j).match_percentage =
      round2 ((calculate_similarity r j * 0.5 +
        (if (extract_skills j).Nonempty then
          ((find_matching_skills (extract_skills r) (extract_skills j)).card : ℝ) /
            ((extract_skills j).card : ℝ) else 0) * 0.5) * 100) := rfl
  set cov : ℝ := if (extract_skills j).Nonempty then
    ((find_matching_skills (extract_skills r) (extract_skills j)).card : ℝ) /
      ((extract_skills j).card : ℝ) else 0 with hcov
  have hcov0 : 0 ≤ cov := by
    rw [hcov]
    split_ifs with h
    · exact div_nonneg (Nat.cast_nonneg _) (Nat.cast_nonneg _)
    · exact le_rfl
  have hcov1 : cov ≤ 1 := by
    rw [hcov]
    split_ifs with h
    · refine div_le_one_of_le₀ ?_ (Nat.cast_nonneg _)
      have hsub : find_matching_skills (extract_skills r) (extract_skills j) ⊆
          extract_skills j := Finset.inter_subset_right
      exact_mod_cast Finset.card_le_card hsub
    · exact zero_le_one
  refine ⟨⟨?_, ?_⟩, ?_⟩
  · rw [hmp]
    apply round2_nonneg
    nlinarith
  · rw [hmp]
    apply round2_le_100
    nlinarith
  · intro hj
    rw [hmp]
    have hz : cov = 0 := by
      rw [hcov, if_neg]
      rw [hj]
      exact Finset.not_nonempty_empty
    rw [hz]
    congr 1
    ring

/-- Witness for C6: job text with no extracted skills. -/
theorem match_percentage_in_range_witness :
    extract_skills "" = ∅ ∧
      (analyze "a" "").match_percentage = round2 (calculate_similarity "a" "" * 50) :=
  ⟨by decide, (match_percentage_in_range "a" "").2 (by decide)⟩

/-- C7: similarity is exactly 0 when either text is empty and exactly 1 when
both arguments are the same non-empty tokenizable text. -/
theorem similarity_empty_and_identical :
    (∀ t : String, calculate_similarity "" t = 0 ∧ calculate_similarity t "" = 0) ∧
    ∀ t : String, ¬t = "" → cvTokens (lowerData t) ≠ [] →
      calculate_similarity t t = 1 := by
  constructor
  · intro t
    constructor
    · unfold calculate_similarity
      rw [if_pos (Or.inl rfl)]
    · unfold calculate_similarity
      rw [if_pos (Or.inr rfl)]
  · intro t h0 htok
    exact calculate_similarity_self h0 htok

/-- Witness for C7 at the spec's concrete text. -/
theorem similarity_empty_and_identical_witness :
    (¬("same text" : String) = "" ∧ cvTokens (lowerData "same text") ≠ []) ∧
      calculate_similarity "same text" "same text" = 1 :=
  ⟨⟨by decide, by decide⟩,
    similarity_empty_and_identical.2 "same text" (by decide) (by decide)⟩

theorem resumeExample_skills :
    extract_skills resumeExample = strSet ["python", "sql", "docker"] := by decide

theorem jobExample_skills :
    extract_skills jobExample = strSet ["python", "sql", "kubernetes"] := by decide

/-- C8: the spec's end-to-end scenario — matching skills python and sql,
missing skill kubernetes, the three job skills required, and a match
percentage strictly between 0 and 100. -/
theorem end_to_end_scenario :
    (analyze resumeExample jobExample).matching_skills = strSet ["python", "sql"] ∧
    (analyze resumeExample jobExample).missing_skills = strSet ["kubernetes"] ∧
    strSet ["python", "sql", "kubernetes"] ⊆
      (analyze resumeExample jobExample).job_required_skills ∧
    0 < (analyze resumeExample jobExample).match_percentage ∧
    (analyze resumeExample jobExample).match_percentage < 100 := by
  have hr := resumeExample_skills
  have hj := jobExample_skills
  have h1 : (analyze resumeExample jobExample).matching_skills =
      extract_skills resumeExample ∩ extract_skills jobExample := rfl
  have h2 : (analyze resumeExample jobExample).missing_skills =
      extract_skills jobExample \
        (extract_skills resumeExample ∩ extract_skills jobExample) := rfl
  have h3 : (analyze resumeExample jobExample).job_required_skills =
      extract_skills jobExample := rfl
  have hsim0 := calculate_similarity_nonneg resumeExample jobExample
  have hsim1 := calculate_similarity_le_one resumeExample jobExample
  have hmp : (analyze resumeExample jobExample).match_percentage =
      round2 ((calculate_similarity resumeExample jobExample * 0.5 +
        (if (extract_skills jobExample).Nonempty then
          ((find_matching_skills (extract_skills resumeExample)
              (extract_skills jobExample)).card : ℝ) /
            ((extract_skills jobExample).card : ℝ) else 0) * 0.5) * 100) := rfl
  have hne : (extract_skills jobExample).Nonempty := by
    rw [hj]
    decide
  have hfm : find_matching_skills (extract_skills resumeExample)
      (extract_skills jobExample) =
      extract_skills resumeExample ∩ extract_skills jobExample := rfl
  have hcard1 : (find_matching_skills (extract_skills resumeExample)
      (extract_skills jobExample)).card = 2 := by
    rw [hfm, hr, hj]
    decide
  have hcard2 : (extract_skills jobExample).card = 3 := by
    rw [hj]
    decide
  rw [if_pos hne, hcard1, hcard2] at hmp
  have hval : ((2 : ℕ) : ℝ) / ((3 : ℕ) : ℝ) = 2 / 3 := by norm_num
  rw [hval] at hmp
  refine ⟨?_, ?_, ?_, ?_, ?_⟩
  · rw [h1, hr, hj]
    decide
  · rw [h2, hr, hj]
    decide
  · rw [h3, hj]
  · rw [hmp]
    unfold round2
    have hlb := le_pyRound (((calculate_similarity resumeExample jobExample * 0.5 +
      2 / 3 * 0.5) * 100) * 100)
    have hX : (0 : ℝ) < (pyRound (((calculate_similarity resumeExample jobExample * 0.5 +
        2 / 3 * 0.5) * 100) * 100) : ℝ) := by
      nlinarith
    exact div_pos hX (by norm_num)
  · rw [hmp]
    unfold round2
    have hub := pyRound_le (((calculate_similarity resumeExample jobExample * 0.5 +
      2 / 3 * 0.5) * 100) * 100)
    have hX : (pyRound (((calculate_similarity resumeExample jobExample * 0.5 +
        2 / 3 * 0.5) * 100) * 100) : ℝ) < 10000 := by
      nlinarith
    linarith
